import Mathlib

/-!
Verification development for the source-snap file-collection engine.

The embedding follows src/index.ts of the current release (the file whose
package metadata names version 1.0.7): the recursive walker collectFiles,
the per-file admission checks, parseGitignore, and the statistics loop of
sourceSnap.  The older generation of the same file (the second copy kept in
the repository) is embedded where it differs: its hand-rolled gitignore
matcher isIgnored and its parseGitignore.

Strings are modelled by the Lean String type; the few string operations the
code needs (split on a character, trim, lower-casing, extension extraction)
are defined here over character lists so that every definition evaluates
inside the kernel.  JS numbers appear in two roles: maxDepth (a nonnegative
integer or Infinity, modelled as Option Nat with none for Infinity) and
maxSizeMB together with the size quotient size / (1024*1024).  The latter is
modelled over the rationals: division of an integer by the power of two
1024*1024 is exact in binary floating point for every realistic size, so the
JS comparison coincides with the rational one.
-/

/-! ## String utilities -/

/-- Split a character list at every occurrence of the separator, keeping empty
segments, as JS String.prototype.split with a single-character separator does:
the segment count is one more than the separator count, and a trailing
separator yields a trailing empty segment. -/
def splitChars (sep : Char) (cs : List Char) : List (List Char) :=
  cs.foldr
    (fun c acc =>
      match acc with
      | seg :: rest => if c = sep then [] :: seg :: rest else (c :: seg) :: rest
      | [] => [[c]])
    [[]]

/-- Split a string on a separator character, as content.split in JS. -/
def splitStr (sep : Char) (s : String) : List String :=
  (splitChars sep s.toList).map String.mk

/-- Remove leading and trailing whitespace, as JS String.prototype.trim on the
whitespace that can occur inside one line of an ignore file. -/
def trimChars (cs : List Char) : List Char :=
  ((cs.dropWhile Char.isWhitespace).reverse.dropWhile Char.isWhitespace).reverse

/-- Trim of a string (JS line.trim()). -/
def trimStr (s : String) : String :=
  String.mk (trimChars s.toList)

/-- Lower-case a string character by character (JS toLowerCase on the ASCII
range, which covers file extensions). -/
def lowerStr (s : String) : String :=
  String.mk (s.toList.map Char.toLower)

/-- Characters after the last slash: path.basename over forward-slash paths. -/
def basenameChars (cs : List Char) : List Char :=
  cs.foldl (fun acc c => if c = '/' then [] else acc ++ [c]) []

/-- Suffix of a character list starting at its last dot, the dot included. -/
def lastDotSuffix : List Char → Option (List Char)
  | [] => none
  | c :: cs =>
    match lastDotSuffix cs with
    | some e => some e
    | none => if c = '.' then some ('.' :: cs) else none

/-- Node path.extname: the extension of the basename, from its last dot to the
end; the empty string when the basename has no dot or when its only dot is the
leading character (dotfiles such as .prettierignore have no extension).  This
matches Node on every name a readdir call can produce; readdir never yields
the special entries named by one or two dots, the only names on which the two
diverge. -/
def extname (p : String) : String :=
  match basenameChars p.toList with
  | [] => ""
  | _ :: rest =>
    match lastDotSuffix rest with
    | some suffix => String.mk suffix
    | none => ""

/-- Root-relative path of a child entry: path.relative(options.folderPath,
fullPath) where fullPath = path.join(parent, name); with forward-slash
separators this extends the parent-relative path by one segment. -/
def childPath (rel name : String) : String :=
  if rel = "" then name else rel ++ "/" ++ name

/-! ## Data model -/

/-- Output format selector; passed through by the core, never read by it. -/
inductive OutputFormat : Type where
  | txt
  | json
deriving DecidableEq, Repr

/-- The configuration record (interface Options).  maxDepth defaults to the JS
Infinity, modelled as none; maxSizeMB is rational as explained above.  silent
and verbose only gate console logging and outputFile and outputFormat only
drive output writing; they are carried for completeness. -/
structure Options where
  folderPath : String
  outputFile : String
  fileTypes : List String
  maxSizeMB : Rat
  maxDepth : Option Nat
  outputFormat : OutputFormat
  silent : Bool
  verbose : Bool
  excludeFolders : List String
  excludeFiles : List String
  respectGitignore : Bool
  includePatterns : List String
  excludePatterns : List String
deriving DecidableEq, Repr

/-- The built-in defaults (defaultOptions).  folderPath defaults to the working
directory and outputFile to a date-stamped name; both are environment data with
no effect on selection and are left empty here. -/
def defaultOptions : Options where
  folderPath := ""
  outputFile := ""
  fileTypes := [".js", ".ts"]
  maxSizeMB := 10
  maxDepth := none
  outputFormat := OutputFormat.txt
  silent := false
  verbose := false
  excludeFolders := ["dist", "node_modules"]
  excludeFiles := ["bun.lockb", "package-lock.json", "yarn.lock", "pnpm-lock.yaml", ".prettierignore"]
  respectGitignore := true
  includePatterns := []
  excludePatterns := []

/-- One filesystem node as the walker sees it: fs.readdir with withFileTypes
reports a name and a kind for each entry.  Regular files carry their stat size
in bytes and their text content; symbolic links carry nothing further because
the code never follows them.  Exotic kinds (sockets, devices), which the loop
also leaves uncollected, are not represented. -/
inductive FSEntry : Type where
  | file (name : String) (size : Nat) (content : String)
  | dir (name : String) (children : List FSEntry)
  | symlink (name : String)

/-- The entry name (Dirent.name). -/
def FSEntry.name : FSEntry → String
  | .file n _ _ => n
  | .dir n _ => n
  | .symlink n => n

/-- Whether the entry is a regular file (Dirent.isFile). -/
def FSEntry.isFile : FSEntry → Bool
  | .file _ _ _ => true
  | _ => false

/-- One collected file: the root-relative path and the full text content. -/
structure CollectedFile where
  path : String
  content : String
deriving DecidableEq, Repr

/-! ## The traversal engine (collectFiles) -/

/-- The guard depth > options.maxDepth at the head of collectFiles; with
maxDepth Infinity it never fires. -/
def depthExceeded (o : Options) (depth : Nat) : Bool :=
  match o.maxDepth with
  | none => false
  | some m => decide (m < depth)

/-- The file branch of the collectFiles loop: exclude-file glob patterns,
include patterns (non-empty list means at least one must match), exclude
patterns, the extension allowlist on the lower-cased extension of the entry
name, then the size ceiling fileSizeMB > maxSizeMB computed from the stat
size; an admitted file contributes its relative path and content.  mm path
pattern stands for minimatch(path, pattern); mkRat size (1024*1024) is the
rational value of the JS quotient size / (1024*1024). -/
def admitFile (o : Options) (mm : String → String → Bool)
    (relativePath name : String) (size : Nat) (content : String) :
    List CollectedFile :=
  if o.excludeFiles.any (fun pattern => mm relativePath pattern) then []
  else if o.includePatterns.length > 0 &&
      !(o.includePatterns.any (fun pattern => mm relativePath pattern)) then []
  else if o.excludePatterns.any (fun pattern => mm relativePath pattern) then []
  else
    let fileExtension := lowerStr (extname name)
    if o.fileTypes.length > 0 && !(o.fileTypes.contains fileExtension) then []
    else
      let fileSizeMB : Rat := mkRat size (1024 * 1024)
      if fileSizeMB > o.maxSizeMB then []
      else [{ path := relativePath, content := content }]

mutual

/-- The body of the collectFiles loop for one directory entry, in source
order: the gitignore test respectGitignore && ig.ignores(relativePath) first,
then the unconditional symbolic-link skip, then the directory branch with the
exclude-folder test on the bare entry name and the recursion at depth + 1,
then the file branch.  ig is the compiled ignore matcher. -/
def collectEntry (o : Options) (ig : String → Bool) (mm : String → String → Bool)
    (rel : String) (depth : Nat) (e : FSEntry) : List CollectedFile :=
  let relativePath := childPath rel e.name
  if o.respectGitignore && ig relativePath then []
  else
    match e with
    | .symlink _ => []
    | .dir name children =>
      if o.excludeFolders.contains name then []
      else collectFiles o ig mm relativePath children (depth + 1)
    | .file name size content => admitFile o mm relativePath name size content

/-- collectFiles on the entry list of one directory: the depth guard runs
before any entry is examined, and the per-entry result lists are concatenated
in entry order, exactly as Promise.all keeps creation order and .flat()
concatenates.  The guard does not change within one entry list, so expressing
the loop by structural recursion re-checks it without effect. -/
def collectFiles (o : Options) (ig : String → Bool) (mm : String → String → Bool)
    (rel : String) (children : List FSEntry) (depth : Nat) : List CollectedFile :=
  if depthExceeded o depth then []
  else
    match children with
    | [] => []
    | e :: rest =>
      collectEntry o ig mm rel depth e ++ collectFiles o ig mm rel rest depth

end

/-- The top-level collection call of sourceSnap: the walk starts on the root
children, with the empty relative prefix and depth 0. -/
def runCollect (o : Options) (ig : String → Bool) (mm : String → String → Bool)
    (rootChildren : List FSEntry) : List CollectedFile :=
  collectFiles o ig mm "" rootChildren 0

/-- One entry step of an arbitrary walker g: exactly the loop body of
collectFiles, with the recursive descent abstracted into g. -/
def walkStep (g : String → List FSEntry → Nat → List CollectedFile)
    (o : Options) (ig : String → Bool) (mm : String → String → Bool)
    (rel : String) (depth : Nat) (e : FSEntry) : List CollectedFile :=
  let relativePath := childPath rel e.name
  if o.respectGitignore && ig relativePath then []
  else
    match e with
    | .symlink _ => []
    | .dir name children =>
      if o.excludeFolders.contains name then []
      else g relativePath children (depth + 1)
    | .file name size content => admitFile o mm relativePath name size content

/-- A walker implements the collection procedure when it satisfies the
defining equation of collectFiles on every input: the depth guard first, then
the per-entry results joined in entry order (the order Promise.all preserves
regardless of completion order, which is why every interleaved execution of
the loop satisfies this same equation). -/
def IsWalk (o : Options) (ig : String → Bool) (mm : String → String → Bool)
    (g : String → List FSEntry → Nat → List CollectedFile) : Prop :=
  ∀ rel cs d, g rel cs d =
    if depthExceeded o d then []
    else
      match cs with
      | [] => []
      | e :: rest => walkStep g o ig mm rel d e ++ g rel rest d

/-! ## The statistics aggregator of sourceSnap -/

/-- Per-extension tally. -/
structure TypeStats where
  files : Nat
  lines : Nat
deriving DecidableEq, Repr

/-- The Stats record; the JS Map is insertion ordered and is modelled as an
association list in which a fresh key is appended at the end. -/
structure Stats where
  totalFiles : Nat
  totalLines : Nat
  fileTypeStats : List (String × TypeStats)
deriving DecidableEq, Repr

/-- Line count of one file: content.split on the line feed, then the segment
count, so a file ending in a line terminator counts one extra empty segment. -/
def countLines (content : String) : Nat :=
  (splitStr '\n' content).length

/-- One Map.set step of the statistics loop: bump the bucket of the given
extension key in place, or append a fresh bucket for an unseen key. -/
def bumpBucket : List (String × TypeStats) → String → Nat → List (String × TypeStats)
  | [], ext, lines => [(ext, { files := 1, lines := lines })]
  | (e, ts) :: rest, ext, lines =>
    if e = ext then (e, { files := ts.files + 1, lines := ts.lines + lines }) :: rest
    else (e, ts) :: bumpBucket rest ext lines

/-- The body of the statistics loop for one collected file: increment
totalFiles, add the line count of the content to totalLines, and bump the
bucket keyed by the lower-cased extension of the collected path (the empty
string for extensionless files). -/
def statsStep (s : Stats) (f : CollectedFile) : Stats :=
  let lines := countLines f.content
  { totalFiles := s.totalFiles + 1
    totalLines := s.totalLines + lines
    fileTypeStats := bumpBucket s.fileTypeStats (lowerStr (extname f.path)) lines }

/-- The statistics loop of sourceSnap: one pass over the collected files,
starting from the all-zero record. -/
def computeStats (result : List CollectedFile) : Stats :=
  result.foldl statsStep { totalFiles := 0, totalLines := 0, fileTypeStats := [] }

/-- One run of sourceSnap as far as the core is concerned: the collected list
and the statistics derived from it. -/
def sourceSnapRun (o : Options) (ig : String → Bool) (mm : String → String → Bool)
    (rootChildren : List FSEntry) : List CollectedFile × Stats :=
  let result := runCollect o ig mm rootChildren
  (result, computeStats result)

/-! ## The ignore-rule compiler -/

/-- parseGitignore of the current release: the attempt to read .gitignore at
the root either yields content, compiled by the external ignore library into
a matcher (abstracted here as compile), or fails, in which case the freshly
constructed empty instance ignore() is returned; its ignores method matches
nothing.  The read result is passed in as an Option, none meaning a missing
or unreadable file. -/
def parseGitignore (compile : String → String → Bool)
    (readResult : Option String) : String → Bool :=
  match readResult with
  | some content => compile content
  | none => fun _ => false

/-! ## Pattern matching engines

segMatchFuel implements the regex language that the older generation of the
code builds from a pattern: the pattern is anchored on both sides, a dot is
escaped, a star becomes dot-star (any character run, slashes included), a
question mark becomes a dot (any one character), every other character stands
for itself (the translation escapes nothing else, so this models patterns
free of further regex metacharacters, which all realistic ignore lines are).
The fuel argument only bounds the recursion depth; the wrapper supplies fuel
that provably suffices, so the wrapper is total and kernel-computable. -/

/-- Fueled anchored matcher for the star and question-mark language: an empty
pattern accepts exactly the empty text; a star either is skipped (matching the
empty run) or consumes one character and stays; a question mark consumes
exactly one character; any other pattern character must equal the next text
character. -/
def segMatchFuel : Nat → List Char → List Char → Bool
  | 0, _, _ => false
  | fuel + 1, p, s =>
    match p with
    | [] => s.isEmpty
    | pc :: ps =>
      if pc = '*' then
        segMatchFuel fuel ps s ||
          (match s with
           | [] => false
           | _ :: s2 => segMatchFuel fuel (pc :: ps) s2)
      else
        match s with
        | [] => false
        | c :: s2 => (if pc = '?' then true else pc == c) && segMatchFuel fuel ps s2

/-- Anchored star and question-mark matching of a whole string against a
pattern; every recursion step of segMatchFuel shortens pattern plus text, so
this fuel suffices. -/
def segMatch (p s : List Char) : Bool :=
  segMatchFuel (p.length + s.length + 1) p s

/-- isIgnored of the older generation: a path is ignored when some pattern,
read as the anchored regex built by the substitutions above, matches the
whole relative path.  Note that a leading exclamation mark is an ordinary
character here: nothing implements negation. -/
def isIgnored (filePath : String) (ignorePatterns : List String) : Bool :=
  ignorePatterns.any (fun pattern => segMatch pattern.toList filePath.toList)

/-- parseGitignore of the older generation: split the content on line feeds,
trim each line, and keep the non-empty lines that do not start with a hash;
a failed read yields the empty pattern list. -/
def parseGitignoreLegacy (readResult : Option String) : List String :=
  match readResult with
  | none => []
  | some content =>
    ((splitStr '\n' content).map trimStr).filter
      (fun line => !(line == "") && !(line.toList.take 1 == ['#']))

/-- Modelled from the spec: the glob matching the current release delegates to
the external minimatch library, which is not part of this repository.  The
spec fixes its semantics: the pattern and the path are split into slash
segments; a pattern segment that is exactly two stars matches any number of
path segments; any other pattern segment must match one path segment, with a
star matching any run inside the segment and a question mark one character.
Fueled for the same reason as segMatchFuel. -/
def globSegsFuel : Nat → List (List Char) → List (List Char) → Bool
  | 0, _, _ => false
  | fuel + 1, ps, segs =>
    match ps, segs with
    | [], [] => true
    | [], _ :: _ => false
    | p :: ps2, segs =>
      if p = ['*', '*'] then
        globSegsFuel fuel ps2 segs ||
          (match segs with
           | [] => false
           | _ :: rest => globSegsFuel fuel (p :: ps2) rest)
      else
        match segs with
        | [] => false
        | seg :: rest => segMatch p seg && globSegsFuel fuel ps2 rest

/-- Segment-list glob matching with sufficient fuel. -/
def globSegs (ps segs : List (List Char)) : Bool :=
  globSegsFuel (ps.length + segs.length + 1) ps segs

/-- Modelled from the spec: minimatch(path, pattern) over forward-slash
relative paths, per the glob semantics the spec assigns to the external
matching capability. -/
def minimatch (p pattern : String) : Bool :=
  globSegs (splitChars '/' pattern.toList) (splitChars '/' p.toList)


/-! ## General lemmas about the walk -/

/-- A symbolic-link entry always contributes the empty list. -/
theorem collectEntry_symlink_eq_nil (o : Options) (ig : String → Bool)
    (mm : String → String → Bool) (rel : String) (d : Nat) (n : String) :
    collectEntry o ig mm rel d (FSEntry.symlink n) = [] := by
  simp [collectEntry]

/-- Once the depth guard fires, a directory contributes nothing. -/
theorem collectFiles_depth_eq_nil (o : Options) (ig : String → Bool)
    (mm : String → String → Bool) (rel : String) (cs : List FSEntry) (d : Nat)
    (hg : depthExceeded o d = true) :
    collectFiles o ig mm rel cs d = [] := by
  cases cs <;> simp [collectFiles, hg]

/-- Empty entry list, empty result. -/
theorem collectFiles_nil_eq (o : Options) (ig : String → Bool)
    (mm : String → String → Bool) (rel : String) (d : Nat) :
    collectFiles o ig mm rel [] d = [] := by
  simp [collectFiles]

/-- One step of the entry loop. -/
theorem collectFiles_cons_eq (o : Options) (ig : String → Bool)
    (mm : String → String → Bool) (rel : String) (e : FSEntry)
    (cs : List FSEntry) (d : Nat) :
    collectFiles o ig mm rel (e :: cs) d =
      if depthExceeded o d then []
      else collectEntry o ig mm rel d e ++ collectFiles o ig mm rel cs d := by
  simp [collectFiles]

/-- The walk distributes over concatenation of the entry list. -/
theorem collectFiles_append_eq (o : Options) (ig : String → Bool)
    (mm : String → String → Bool) (rel : String) (cs1 cs2 : List FSEntry) (d : Nat) :
    collectFiles o ig mm rel (cs1 ++ cs2) d =
      collectFiles o ig mm rel cs1 d ++ collectFiles o ig mm rel cs2 d := by
  induction cs1 with
  | nil => simp [collectFiles_nil_eq]
  | cons e rest ih =>
    by_cases hg : depthExceeded o d = true
    · simp [collectFiles_depth_eq_nil _ _ _ _ _ _ hg]
    · rw [List.cons_append, collectFiles_cons_eq, collectFiles_cons_eq, if_neg, if_neg,
        ih, List.append_assoc] <;> simp [hg]

/-- C1: a symbolic-link entry is skipped unconditionally, whatever the
configuration, the ignore matcher and the glob matcher: the collected result
over an entry list containing the link equals the result with the link
removed, so the link itself is never collected and, the model giving a link
no children to descend into exactly as the code never follows one, no target
subtree of it is ever traversed. -/
theorem symlink_skipped_unconditionally (o : Options) (ig : String → Bool)
    (mm : String → String → Bool) (rel n : String)
    (cs1 cs2 : List FSEntry) (d : Nat) :
    collectFiles o ig mm rel (cs1 ++ FSEntry.symlink n :: cs2) d =
      collectFiles o ig mm rel (cs1 ++ cs2) d := by
  rw [collectFiles_append_eq, collectFiles_append_eq]
  congr 1
  by_cases hg : depthExceeded o d = true
  · rw [collectFiles_depth_eq_nil _ _ _ _ _ _ hg, collectFiles_depth_eq_nil _ _ _ _ _ _ hg]
  · rw [collectFiles_cons_eq, if_neg, collectEntry_symlink_eq_nil, List.nil_append]
    simp [hg]

/-- C2: the exclude-folder test skips exactly the directories whose own name
is an element of config.excludeFolders: a listed name is skipped with its
whole subtree no matter what else holds, and an unlisted name (even one that
contains a listed name as a substring, or whose full path does) is descended
into whenever the gitignore test lets it through. -/
theorem excludeFolders_exact_name (o : Options) (ig : String → Bool)
    (mm : String → String → Bool) (rel name : String) (cs : List FSEntry) (d : Nat) :
    (name ∈ o.excludeFolders →
      collectEntry o ig mm rel d (FSEntry.dir name cs) = []) ∧
    (name ∉ o.excludeFolders →
      (o.respectGitignore && ig (childPath rel name)) = false →
      collectEntry o ig mm rel d (FSEntry.dir name cs) =
        collectFiles o ig mm (childPath rel name) cs (d + 1)) := by
  constructor
  · intro hmem
    by_cases hig : (o.respectGitignore && ig (childPath rel name)) = true
    · simp [collectEntry, FSEntry.name, hig]
    · simp only [Bool.not_eq_true] at hig
      simp [collectEntry, FSEntry.name, hig, hmem]
  · intro hmem hig
    simp [collectEntry, FSEntry.name, hig, hmem]

/-- Witness for C2: with the default configuration a directory named dist is
skipped with its subtree, while a directory named mydist is descended into,
although dist occurs as a substring of the name mydist. -/
theorem excludeFolders_exact_name_witness :
    collectEntry defaultOptions (fun _ => false) (fun _ _ => false) "" 0
        (FSEntry.dir "dist" [FSEntry.file "x.ts" 1 "y"]) = [] ∧
    collectEntry defaultOptions (fun _ => false) (fun _ _ => false) "" 0
        (FSEntry.dir "mydist" [FSEntry.file "x.ts" 1 "y"]) =
      collectFiles defaultOptions (fun _ => false) (fun _ _ => false) "mydist"
        [FSEntry.file "x.ts" 1 "y"] 1 := by
  refine ⟨(excludeFolders_exact_name defaultOptions _ _ "" "dist" _ 0).1 (by decide), ?_⟩
  have h2 := (excludeFolders_exact_name defaultOptions (fun _ => false) (fun _ _ => false)
    "" "mydist" [FSEntry.file "x.ts" 1 "y"] 0).2 (by decide) (by decide)
  simpa [childPath] using h2

/-- Once the next depth level is out of bounds, a directory entry is cut. -/
theorem collectEntry_dir_cut (o : Options) (ig : String → Bool)
    (mm : String → String → Bool) (rel name : String) (cs : List FSEntry) (d : Nat)
    (hg : depthExceeded o (d + 1) = true) :
    collectEntry o ig mm rel d (FSEntry.dir name cs) = [] := by
  by_cases hig : (o.respectGitignore && ig (childPath rel name)) = true
  · simp [collectEntry, FSEntry.name, hig]
  · simp only [Bool.not_eq_true] at hig
    by_cases hex : name ∈ o.excludeFolders
    · simp [collectEntry, FSEntry.name, hig, hex]
    · simp [collectEntry, FSEntry.name, hig, hex,
        collectFiles_depth_eq_nil _ _ _ _ _ _ hg]

/-- C3: the depth bound is checked before descending, so whenever the next
level is out of bounds (in particular for every configuration with maxDepth
zero, at the root level) the walk over an entry list equals the walk over its
regular files alone: no subdirectory contributes anything and nothing fails. -/
theorem depth_bound_cuts_subdirectories (o : Options) (ig : String → Bool)
    (mm : String → String → Bool) (rel : String) (cs : List FSEntry) (d : Nat)
    (hg : depthExceeded o (d + 1) = true) :
    collectFiles o ig mm rel cs d =
      collectFiles o ig mm rel (cs.filter FSEntry.isFile) d := by
  induction cs with
  | nil => simp
  | cons e rest ih =>
    by_cases hgd : depthExceeded o d = true
    · rw [collectFiles_depth_eq_nil _ _ _ _ _ _ hgd, collectFiles_depth_eq_nil _ _ _ _ _ _ hgd]
    · cases e with
      | file n sz c =>
        rw [List.filter_cons_of_pos (by simp [FSEntry.isFile]),
          collectFiles_cons_eq, collectFiles_cons_eq, ih]
      | dir n cs2 =>
        rw [List.filter_cons_of_neg (by simp [FSEntry.isFile]),
          collectFiles_cons_eq, if_neg, collectEntry_dir_cut _ _ _ _ _ _ _ hg,
          List.nil_append, ih]
        simp [hgd]
      | symlink n =>
        rw [List.filter_cons_of_neg (by simp [FSEntry.isFile]),
          collectFiles_cons_eq, if_neg, collectEntry_symlink_eq_nil,
          List.nil_append, ih]
        simp [hgd]

/-- Witness for C3: with maxDepth zero, the walk over a root containing a file
and a subdirectory holding a further file equals the walk over the root files
alone, and that result is just the root file. -/
theorem depth_bound_cuts_subdirectories_witness :
    depthExceeded { defaultOptions with maxDepth := some 0 } 1 = true ∧
    collectFiles { defaultOptions with maxDepth := some 0 } (fun _ => false)
        (fun _ _ => false) ""
        [FSEntry.file "a.ts" 1 "r", FSEntry.dir "b" [FSEntry.file "c.ts" 1 "w"]] 0 =
      collectFiles { defaultOptions with maxDepth := some 0 } (fun _ => false)
        (fun _ _ => false) ""
        ([FSEntry.file "a.ts" 1 "r",
          FSEntry.dir "b" [FSEntry.file "c.ts" 1 "w"]].filter FSEntry.isFile) 0 ∧
    collectFiles { defaultOptions with maxDepth := some 0 } (fun _ => false)
        (fun _ _ => false) ""
        [FSEntry.file "a.ts" 1 "r", FSEntry.dir "b" [FSEntry.file "c.ts" 1 "w"]] 0 =
      [{ path := "a.ts", content := "r" }] := by
  exact ⟨by decide,
    depth_bound_cuts_subdirectories _ _ _ _ _ 0 (by decide),
    by decide⟩

/-! ## Statistics lemmas -/

/-- Bumping a bucket adds the line count to the bucket line total. -/
theorem bumpBucket_lines_sum (m : List (String × TypeStats)) (ext : String) (lines : Nat) :
    ((bumpBucket m ext lines).map (fun b => b.2.lines)).sum =
      (m.map (fun b => b.2.lines)).sum + lines := by
  induction m with
  | nil => simp [bumpBucket]
  | cons b rest ih =>
    obtain ⟨e, ts⟩ := b
    by_cases he : e = ext
    · simp [bumpBucket, he]
      omega
    · simp [bumpBucket, he, ih]
      omega

/-- Bumping a bucket adds one to the bucket file total. -/
theorem bumpBucket_files_sum (m : List (String × TypeStats)) (ext : String) (lines : Nat) :
    ((bumpBucket m ext lines).map (fun b => b.2.files)).sum =
      (m.map (fun b => b.2.files)).sum + 1 := by
  induction m with
  | nil => simp [bumpBucket]
  | cons b rest ih =>
    obtain ⟨e, ts⟩ := b
    by_cases he : e = ext
    · simp [bumpBucket, he]
      omega
    · simp [bumpBucket, he, ih]
      omega

/-- Invariants of the statistics fold, for an arbitrary starting record. -/
theorem statsStep_fold (l : List CollectedFile) :
    ∀ s : Stats,
      (l.foldl statsStep s).totalFiles = s.totalFiles + l.length ∧
      (l.foldl statsStep s).totalLines =
        s.totalLines + (l.map (fun f => countLines f.content)).sum ∧
      ((l.foldl statsStep s).fileTypeStats.map (fun b => b.2.lines)).sum =
        (s.fileTypeStats.map (fun b => b.2.lines)).sum +
          (l.map (fun f => countLines f.content)).sum ∧
      ((l.foldl statsStep s).fileTypeStats.map (fun b => b.2.files)).sum =
        (s.fileTypeStats.map (fun b => b.2.files)).sum + l.length := by
  induction l with
  | nil => intro s; simp
  | cons f rest ih =>
    intro s
    obtain ⟨h1, h2, h3, h4⟩ := ih (statsStep s f)
    refine ⟨?_, ?_, ?_, ?_⟩
    · rw [List.foldl_cons, h1]
      simp [statsStep]
      omega
    · rw [List.foldl_cons, h2]
      simp [statsStep]
      omega
    · rw [List.foldl_cons, h3]
      simp [statsStep, bumpBucket_lines_sum]
      omega
    · rw [List.foldl_cons, h4]
      simp [statsStep, bumpBucket_files_sum]
      omega

/-- C4: for every run, totalFiles is the length of the collected list, the
line count of each file is the segment count of its content split at line
feeds (countLines, with the trailing empty segment of a terminated file
counted), totalLines is the sum of these counts and equals the sum of the
lines in the per-extension buckets (keyed by the lower-cased extension of the
path, the empty string for extensionless names), and totalFiles likewise
equals the sum of the bucket file counts. -/
theorem stats_invariant (o : Options) (ig : String → Bool)
    (mm : String → String → Bool) (rootChildren : List FSEntry) :
    (sourceSnapRun o ig mm rootChildren).2.totalFiles =
      (sourceSnapRun o ig mm rootChildren).1.length ∧
    (sourceSnapRun o ig mm rootChildren).2.totalLines =
      ((sourceSnapRun o ig mm rootChildren).1.map (fun f => countLines f.content)).sum ∧
    (sourceSnapRun o ig mm rootChildren).2.totalLines =
      ((sourceSnapRun o ig mm rootChildren).2.fileTypeStats.map (fun b => b.2.lines)).sum ∧
    (sourceSnapRun o ig mm rootChildren).2.totalFiles =
      ((sourceSnapRun o ig mm rootChildren).2.fileTypeStats.map (fun b => b.2.files)).sum := by
  obtain ⟨h1, h2, h3, h4⟩ := statsStep_fold (runCollect o ig mm rootChildren)
    { totalFiles := 0, totalLines := 0, fileTypeStats := [] }
  refine ⟨?_, ?_, ?_, ?_⟩ <;>
    simp [sourceSnapRun, computeStats, h1, h2, h3, h4]

/-! ## The size ceiling -/

/-- C7: a regular file that reaches the size check is rejected exactly when
its size quotient size / (1024*1024), taken as an exact rational, strictly
exceeds maxSizeMB; rejection only makes its contribution empty (the walk
continues, nothing is raised), and a file whose quotient equals the ceiling
is admitted. -/
theorem size_ceiling_rejects_iff (o : Options) (mm : String → String → Bool)
    (relativePath name : String) (size : Nat) (content : String)
    (h1 : o.excludeFiles.any (fun pattern => mm relativePath pattern) = false)
    (h2 : (o.includePatterns.length > 0 &&
      !(o.includePatterns.any (fun pattern => mm relativePath pattern))) = false)
    (h3 : o.excludePatterns.any (fun pattern => mm relativePath pattern) = false)
    (h4 : (o.fileTypes.length > 0 &&
      !(o.fileTypes.contains (lowerStr (extname name)))) = false) :
    admitFile o mm relativePath name size content =
      if mkRat size (1024 * 1024) > o.maxSizeMB then []
      else [{ path := relativePath, content := content }] := by
  simp only [admitFile]
  rw [if_neg (by rw [h1]; simp), if_neg (by rw [h2]; simp), if_neg (by rw [h3]; simp),
    if_neg (by rw [h4]; simp)]

/-- Witness for C7: with the other filters vacuous, a 2000 byte file is
rejected under a ceiling of 0.001 MB (the quotient 2000 / 1048576 exceeds one
thousandth; the nearest binary double to 0.001 gives the same verdict), and a
file whose quotient equals the ceiling exactly is admitted. -/
theorem size_ceiling_rejects_iff_witness :
    admitFile { defaultOptions with fileTypes := [], maxSizeMB := mkRat 1 1000 }
        (fun _ _ => false) "big.bin" "big.bin" 2000 "" = [] ∧
    admitFile { defaultOptions with fileTypes := [], maxSizeMB := mkRat 2000 (1024 * 1024) }
        (fun _ _ => false) "big.bin" "big.bin" 2000 "" =
      [{ path := "big.bin", content := "" }] := by
  constructor
  · exact (size_ceiling_rejects_iff _ _ _ _ 2000 _
      (by decide) (by decide) (by decide) (by decide)).trans (by decide)
  · exact (size_ceiling_rejects_iff _ _ _ _ 2000 _
      (by decide) (by decide) (by decide) (by decide)).trans (by decide)

/-! ## The older gitignore matcher has no negation -/

/-- C6, evaluated at the failing input: the parse does drop blank lines and
hash lines, but the matcher treats a leading exclamation mark as an ordinary
character, so the line meant to negate matches nothing and the path keep.log
stays ignored although the last gitignore rule concerning it is the negation. -/
theorem gitignore_negation_not_implemented :
    parseGitignoreLegacy (some "*.log\n\n# note\n!keep.log") = ["*.log", "!keep.log"] ∧
    segMatch "!keep.log".toList "keep.log".toList = false ∧
    isIgnored "keep.log" (parseGitignoreLegacy (some "*.log\n\n# note\n!keep.log")) = true := by
  refine ⟨by decide, by decide, by decide⟩

/-! ## Congruence of the walk in the ignore inputs -/

/-- The admission checks read only the listed configuration fields. -/
theorem admitFile_congr (o o2 : Options) (mm : String → String → Bool)
    (hT : o2.fileTypes = o.fileTypes) (hS : o2.maxSizeMB = o.maxSizeMB)
    (hEF : o2.excludeFiles = o.excludeFiles) (hIP : o2.includePatterns = o.includePatterns)
    (hEP : o2.excludePatterns = o.excludePatterns)
    (relativePath name : String) (size : Nat) (content : String) :
    admitFile o mm relativePath name size content =
      admitFile o2 mm relativePath name size content := by
  simp only [admitFile, hT, hS, hEF, hIP, hEP]

/-- The depth guard reads only maxDepth. -/
theorem depthExceeded_congr (o o2 : Options) (hD : o2.maxDepth = o.maxDepth) (d : Nat) :
    depthExceeded o2 d = depthExceeded o d := by
  simp only [depthExceeded, hD]

mutual

/-- Entrywise: two configurations agreeing on every selection field, and whose
effective gitignore tests respectGitignore && ig agree on every path, process
every entry identically. -/
theorem collectEntry_ignore_congr (o o2 : Options) (ig ig2 : String → Bool)
    (mm : String → String → Bool)
    (hT : o2.fileTypes = o.fileTypes) (hS : o2.maxSizeMB = o.maxSizeMB)
    (hD : o2.maxDepth = o.maxDepth) (hXF : o2.excludeFolders = o.excludeFolders)
    (hEF : o2.excludeFiles = o.excludeFiles) (hIP : o2.includePatterns = o.includePatterns)
    (hEP : o2.excludePatterns = o.excludePatterns)
    (hig : ∀ p, (o.respectGitignore && ig p) = (o2.respectGitignore && ig2 p))
    (rel : String) (d : Nat) (e : FSEntry) :
    collectEntry o ig mm rel d e = collectEntry o2 ig2 mm rel d e := by
  cases e with
  | symlink n => simp [collectEntry]
  | dir n cs =>
    simp only [collectEntry, FSEntry.name, hig (childPath rel n), hXF]
    by_cases h1 : (o2.respectGitignore && ig2 (childPath rel n)) = true
    · simp [h1]
    · simp only [Bool.not_eq_true] at h1
      by_cases h2 : n ∈ o.excludeFolders
      · simp [h1, h2]
      · simp [h1, h2]
        exact collectFiles_ignore_congr o o2 ig ig2 mm hT hS hD hXF hEF hIP hEP hig
          (childPath rel n) cs (d + 1)
  | file n sz c =>
    simp only [collectEntry, FSEntry.name, hig (childPath rel n)]
    by_cases h1 : (o2.respectGitignore && ig2 (childPath rel n)) = true
    · simp [h1]
    · simp only [Bool.not_eq_true] at h1
      simp only [h1, if_false]
      exact admitFile_congr o o2 mm hT hS hEF hIP hEP (childPath rel n) n sz c

/-- Listwise version of the previous congruence. -/
theorem collectFiles_ignore_congr (o o2 : Options) (ig ig2 : String → Bool)
    (mm : String → String → Bool)
    (hT : o2.fileTypes = o.fileTypes) (hS : o2.maxSizeMB = o.maxSizeMB)
    (hD : o2.maxDepth = o.maxDepth) (hXF : o2.excludeFolders = o.excludeFolders)
    (hEF : o2.excludeFiles = o.excludeFiles) (hIP : o2.includePatterns = o.includePatterns)
    (hEP : o2.excludePatterns = o.excludePatterns)
    (hig : ∀ p, (o.respectGitignore && ig p) = (o2.respectGitignore && ig2 p))
    (rel : String) (cs : List FSEntry) (d : Nat) :
    collectFiles o ig mm rel cs d = collectFiles o2 ig2 mm rel cs d := by
  cases cs with
  | nil => rw [collectFiles_nil_eq, collectFiles_nil_eq]
  | cons e rest =>
    rw [collectFiles_cons_eq, collectFiles_cons_eq, depthExceeded_congr o o2 hD d,
      collectEntry_ignore_congr o o2 ig ig2 mm hT hS hD hXF hEF hIP hEP hig rel d e,
      collectFiles_ignore_congr o o2 ig ig2 mm hT hS hD hXF hEF hIP hEP hig rel rest d]

end

/-- C5: when the ignore-file read fails, parseGitignore yields a matcher that
matches nothing (never an error), and the whole collection then behaves
identically to a collection that honours no ignore rules at all: the result
equals the one for the same configuration with respectGitignore off and an
arbitrary matcher. -/
theorem gitignore_read_failure_inert (compile : String → String → Bool)
    (o : Options) (ig2 : String → Bool) (mm : String → String → Bool)
    (rel : String) (cs : List FSEntry) (d : Nat) :
    (∀ p, parseGitignore compile none p = false) ∧
    collectFiles o (parseGitignore compile none) mm rel cs d =
      collectFiles { o with respectGitignore := false } ig2 mm rel cs d := by
  refine ⟨fun p => rfl, ?_⟩
  exact collectFiles_ignore_congr o { o with respectGitignore := false }
    (parseGitignore compile none) ig2 mm rfl rfl rfl rfl rfl rfl rfl
    (fun p => by simp [parseGitignore]) rel cs d

/-! ## Determinism of the walk -/

/-- The loop body applied to the reference walker is collectEntry. -/
theorem walkStep_collectFiles (o : Options) (ig : String → Bool)
    (mm : String → String → Bool) (rel : String) (d : Nat) (e : FSEntry) :
    walkStep (fun rel2 cs2 d2 => collectFiles o ig mm rel2 cs2 d2) o ig mm rel d e =
      collectEntry o ig mm rel d e := by
  cases e <;> rfl

/-- The reference walker satisfies the specification. -/
theorem collectFiles_isWalk (o : Options) (ig : String → Bool)
    (mm : String → String → Bool) :
    IsWalk o ig mm (fun rel cs d => collectFiles o ig mm rel cs d) := by
  intro rel cs d
  cases cs with
  | nil => simp [collectFiles]
  | cons e rest =>
    show collectFiles o ig mm rel (e :: rest) d =
      if depthExceeded o d then []
      else walkStep (fun rel2 cs2 d2 => collectFiles o ig mm rel2 cs2 d2) o ig mm rel d e ++
        collectFiles o ig mm rel rest d
    rw [collectFiles_cons_eq, walkStep_collectFiles]

/-- Any walker satisfying the specification agrees with the reference walker;
strong induction on the size of the entry list. -/
theorem isWalk_unique_aux (o : Options) (ig : String → Bool)
    (mm : String → String → Bool)
    (g : String → List FSEntry → Nat → List CollectedFile)
    (hg : IsWalk o ig mm g) :
    ∀ n cs, sizeOf cs < n → ∀ rel d, g rel cs d = collectFiles o ig mm rel cs d := by
  intro n
  induction n with
  | zero => intro cs hcs; omega
  | succ n ih =>
    intro cs hcs rel d
    rw [hg rel cs d]
    cases cs with
    | nil => simp [collectFiles_nil_eq]
    | cons e rest =>
      have hsz : sizeOf (e :: rest) = 1 + sizeOf e + sizeOf rest := by
        simp [List.cons.sizeOf_spec]
      have hrest : sizeOf rest < n := by omega
      rw [collectFiles_cons_eq]
      by_cases hgd : depthExceeded o d = true
      · simp [hgd]
      · simp only [Bool.not_eq_true] at hgd
        simp only [hgd, Bool.false_eq_true, if_false]
        have hentry : walkStep g o ig mm rel d e = collectEntry o ig mm rel d e := by
          cases e with
          | symlink nm => rfl
          | file nm sz c => rfl
          | dir nm cs2 =>
            have hcs2 : sizeOf cs2 < n := by
              have : sizeOf (FSEntry.dir nm cs2) = 1 + sizeOf nm + sizeOf cs2 := by
                simp [FSEntry.dir.sizeOf_spec]
              omega
            simp only [walkStep, collectEntry, FSEntry.name]
            rw [ih cs2 hcs2 (childPath rel nm) (d + 1)]
        rw [hentry, ih rest hrest rel d]

/-- C9: determinism of collection as a two-run property: any two walkers that
implement the collection procedure for the same configuration, ignore matcher
and glob matcher return identical collected lists on every entry list, every
relative prefix and every depth.  Scheduling cannot intrude: whatever order
the spawned per-entry tasks complete in, a run still satisfies the defining
equation (results are created in entry order and Promise.all joins them in
creation order), so any two runs coincide. -/
theorem collection_two_runs_agree (o : Options) (ig : String → Bool)
    (mm : String → String → Bool)
    (g h : String → List FSEntry → Nat → List CollectedFile)
    (hg : IsWalk o ig mm g) (hh : IsWalk o ig mm h) :
    ∀ rel cs d, g rel cs d = h rel cs d := by
  intro rel cs d
  rw [isWalk_unique_aux o ig mm g hg (sizeOf cs + 1) cs (by omega) rel d,
    isWalk_unique_aux o ig mm h hh (sizeOf cs + 1) cs (by omega) rel d]

/-- Witness for C9: the reference walker satisfies the specification, and two
runs of it over a concrete tree agree. -/
theorem collection_two_runs_agree_witness :
    (fun rel cs d => collectFiles defaultOptions (fun _ => false) (fun _ _ => false) rel cs d)
        "" [FSEntry.file "a.ts" 1 "x", FSEntry.dir "b" [FSEntry.file "c.ts" 1 "y"]] 0 =
      (fun rel cs d => collectFiles defaultOptions (fun _ => false) (fun _ _ => false) rel cs d)
        "" [FSEntry.file "a.ts" 1 "x", FSEntry.dir "b" [FSEntry.file "c.ts" 1 "y"]] 0 := by
  exact collection_two_runs_agree defaultOptions (fun _ => false) (fun _ _ => false) _ _
    (collectFiles_isWalk _ _ _) (collectFiles_isWalk _ _ _) ""
    [FSEntry.file "a.ts" 1 "x", FSEntry.dir "b" [FSEntry.file "c.ts" 1 "y"]] 0

/-! ## Literal patterns -/

/-- Forward direction: a pattern free of stars and question marks matches only
itself, whatever the fuel. -/
theorem segMatchFuel_literal_imp :
    ∀ (fuel : Nat) (p s : List Char), (∀ c ∈ p, c ≠ '*' ∧ c ≠ '?') →
      segMatchFuel fuel p s = true → p = s := by
  intro fuel
  induction fuel with
  | zero => intro p s hl h; simp [segMatchFuel] at h
  | succ fuel ih =>
    intro p s hl h
    cases p with
    | nil =>
      simp only [segMatchFuel, List.isEmpty_iff] at h
      rw [h]
    | cons pc ps =>
      have hpc : pc ≠ '*' ∧ pc ≠ '?' := hl pc (by simp)
      cases s with
      | nil => simp [segMatchFuel, hpc.1] at h
      | cons c s2 =>
        simp only [segMatchFuel, hpc.1, hpc.2, if_false, Bool.and_eq_true, beq_iff_eq] at h
        have := ih ps s2 (fun x hx => hl x (by simp [hx])) h.2
        rw [h.1, this]

/-- Backward direction: with enough fuel, a star-free and question-mark-free
pattern matches itself. -/
theorem segMatchFuel_literal_self :
    ∀ (fuel : Nat) (p : List Char), (∀ c ∈ p, c ≠ '*' ∧ c ≠ '?') →
      p.length < fuel → segMatchFuel fuel p p = true := by
  intro fuel
  induction fuel with
  | zero => intro p hl hf; omega
  | succ fuel ih =>
    intro p hl hf
    cases p with
    | nil => simp [segMatchFuel]
    | cons pc ps =>
      have hpc : pc ≠ '*' ∧ pc ≠ '?' := hl pc (by simp)
      have hrec : segMatchFuel fuel ps ps = true := by
        refine ih ps (fun x hx => hl x (by simp [hx])) ?_
        simp at hf
        omega
      simp [segMatchFuel, hpc.1, hpc.2, hrec]

/-- A pattern free of stars and question marks matches exactly itself. -/
theorem segMatch_literal (p s : List Char) (hl : ∀ c ∈ p, c ≠ '*' ∧ c ≠ '?') :
    segMatch p s = true ↔ p = s := by
  constructor
  · exact segMatchFuel_literal_imp _ p s hl
  · intro he
    subst he
    exact segMatchFuel_literal_self _ p hl (by omega)

/-- Unfolding of the split at a head character. -/
theorem splitChars_cons (sep c : Char) (cs : List Char) :
    splitChars sep (c :: cs) =
      match splitChars sep cs with
      | seg :: rest => if c = sep then [] :: seg :: rest else (c :: seg) :: rest
      | [] => [[c]] := rfl

/-- The split always yields at least one segment. -/
theorem splitChars_ne_nil (sep : Char) (cs : List Char) : splitChars sep cs ≠ [] := by
  induction cs with
  | nil => simp [splitChars]
  | cons c cs ih =>
    rw [splitChars_cons]
    cases h : splitChars sep cs with
    | nil => simp
    | cons seg rest =>
      by_cases hc : c = sep <;> simp [hc]

/-- A list without the separator splits into the single segment it is. -/
theorem splitChars_no_sep (sep : Char) (cs : List Char) (h : ∀ c ∈ cs, c ≠ sep) :
    splitChars sep cs = [cs] := by
  induction cs with
  | nil => rfl
  | cons c cs ih =>
    rw [splitChars_cons, ih (fun x hx => h x (by simp [hx]))]
    simp [h c (by simp)]

/-- Conversely, a one-segment split means the separator never occurred and the
segment is the whole list. -/
theorem splitChars_eq_single (sep : Char) (cs ys : List Char)
    (h : splitChars sep cs = [ys]) : cs = ys := by
  induction cs generalizing ys with
  | nil =>
    simp [splitChars] at h
    rw [h]
  | cons c cs ih =>
    rw [splitChars_cons] at h
    cases hsc : splitChars sep cs with
    | nil => exact absurd hsc (splitChars_ne_nil sep cs)
    | cons seg rest =>
      rw [hsc] at h
      by_cases hc : c = sep
      · simp [hc] at h
      · simp only [hc, if_false] at h
        obtain ⟨h1a, h1b⟩ : c :: seg = ys ∧ rest = [] := by simpa using h
        rw [h1b] at hsc
        rw [← h1a, ih seg hsc]

/-- With positive fuel, the empty pattern list accepts exactly the empty
segment list. -/
theorem globSegsFuel_nil (fuel : Nat) (hf : 0 < fuel) (segs : List (List Char)) :
    globSegsFuel fuel [] segs = decide (segs = []) := by
  cases fuel with
  | zero => omega
  | succ f => cases segs <;> simp [globSegsFuel]

/-- With enough fuel, a single star-free and question-mark-free pattern
segment accepts exactly the one-segment list holding the segment itself. -/
theorem globSegsFuel_single_literal (fuel : Nat) (pat : List Char)
    (segs : List (List Char)) (hl : ∀ c ∈ pat, c ≠ '*' ∧ c ≠ '?')
    (hf : segs.length + 1 < fuel) :
    (globSegsFuel fuel [pat] segs = true ↔ segs = [pat]) := by
  have hne : pat ≠ ['*', '*'] := by
    intro he
    exact (hl '*' (by rw [he]; simp)).1 rfl
  cases fuel with
  | zero => omega
  | succ f =>
    cases segs with
    | nil =>
      constructor <;> intro h
      · simp [globSegsFuel, hne] at h
      · simp at h
    | cons seg rest =>
      simp only [globSegsFuel, hne, if_false]
      rw [globSegsFuel_nil f (by simp at hf; omega) rest]
      constructor
      · intro h
        obtain ⟨h1, h2⟩ : segMatch pat seg = true ∧ rest = [] := by
          simpa [Bool.and_eq_true] using h
        have h3 := (segMatch_literal pat seg hl).mp h1
        rw [h2, ← h3]
      · intro h
        obtain ⟨h1, h2⟩ : seg = pat ∧ rest = [] := by simpa using h
        rw [h1, h2]
        simp [(segMatch_literal pat pat hl).mpr rfl]

/-- A bare literal glob (no slash, no wildcard) matches exactly itself as a
whole relative path. -/
theorem minimatch_bare_literal (pattern p : String)
    (h : ∀ c ∈ pattern.toList, c ≠ '/' ∧ c ≠ '*' ∧ c ≠ '?') :
    (minimatch p pattern = true ↔ p = pattern) := by
  unfold minimatch globSegs
  rw [splitChars_no_sep '/' pattern.toList (fun c hc => (h c hc).1)]
  rw [globSegsFuel_single_literal _ pattern.toList _
    (fun c hc => ⟨(h c hc).2.1, (h c hc).2.2⟩) (by simp)]
  constructor
  · intro hsp
    exact String.ext (splitChars_eq_single '/' p.toList pattern.toList hsp)
  · intro he
    rw [he]
    exact splitChars_no_sep '/' pattern.toList (fun c hc => (h c hc).1)

/-- C10: exclude-file patterns are matched against the whole root-relative
path, never against the basename: under the modelled minimatch semantics, a
bare pattern containing no slash and no wildcard hits exactly the file whose
relative path equals the pattern itself, that is, a file at the root bearing
that name; the same name inside any subdirectory gives a relative path with a
slash, which this check never excludes. -/
theorem excludeFiles_whole_path (o : Options) (pattern p : String)
    (hlit : ∀ c ∈ pattern.toList, c ≠ '/' ∧ c ≠ '*' ∧ c ≠ '?')
    (hex : o.excludeFiles = [pattern]) :
    (o.excludeFiles.any (fun pat => minimatch p pat) = true ↔ p = pattern) ∧
    (p.toList.contains '/' = true →
      o.excludeFiles.any (fun pat => minimatch p pat) = false) := by
  have hiff : (o.excludeFiles.any (fun pat => minimatch p pat) = true ↔ p = pattern) := by
    rw [hex]
    simp only [List.any_cons, List.any_nil, Bool.or_false]
    exact minimatch_bare_literal pattern p hlit
  refine ⟨hiff, fun hsl => ?_⟩
  cases hb : o.excludeFiles.any (fun pat => minimatch p pat) with
  | false => rfl
  | true =>
    have hpp := hiff.mp hb
    rw [hpp] at hsl
    have hmem : '/' ∈ pattern.toList := by simpa using hsl
    exact absurd rfl (hlit '/' hmem).1

/-- Witness for C10: the default exclude pattern package-lock.json hits the
root file of that name and misses sub/package-lock.json. -/
theorem excludeFiles_whole_path_witness :
    ({ defaultOptions with excludeFiles := ["package-lock.json"] }.excludeFiles.any
        (fun pat => minimatch "package-lock.json" pat) = true) ∧
    ({ defaultOptions with excludeFiles := ["package-lock.json"] }.excludeFiles.any
        (fun pat => minimatch "sub/package-lock.json" pat) = false) := by
  refine ⟨?_, ?_⟩
  · exact (excludeFiles_whole_path
      { defaultOptions with excludeFiles := ["package-lock.json"] }
      "package-lock.json" "package-lock.json" (by decide) rfl).1.mpr rfl
  · exact (excludeFiles_whole_path
      { defaultOptions with excludeFiles := ["package-lock.json"] }
      "package-lock.json" "sub/package-lock.json" (by decide) rfl).2 (by decide)

/-! ## Round trip of the extension allowlist -/

/-- The basename fold restarts at a slash. -/
theorem basenameChars_append_slash (xs ys : List Char) :
    basenameChars (xs ++ '/' :: ys) = basenameChars ys := by
  unfold basenameChars
  rw [List.foldl_append, List.foldl_cons]
  simp

/-- The extension of an extended relative path is the extension of the final
segment: extname only reads the basename. -/
theorem extname_childPath (rel name : String) :
    extname (childPath rel name) = extname name := by
  unfold childPath
  by_cases hr : rel = ""
  · rw [if_pos hr]
  · rw [if_neg hr]
    unfold extname
    have ht : (rel ++ "/" ++ name).toList = rel.toList ++ '/' :: name.toList := by
      show (rel.toList ++ ['/']) ++ name.toList = rel.toList ++ '/' :: name.toList
      rw [List.append_assoc]
      rfl
    rw [ht, basenameChars_append_slash]

/-- The admission checks with an allowlist U behave like the empty allowlist
whenever U covers the extension of anything the empty-allowlist admission
admits; all other configuration fields agree. -/
theorem admitFile_fileTypes_cover (o oU : Options) (U : List String)
    (mm : String → String → Bool)
    (hfty : o.fileTypes = []) (hftyU : oU.fileTypes = U)
    (hS : oU.maxSizeMB = o.maxSizeMB) (hEF : oU.excludeFiles = o.excludeFiles)
    (hIP : oU.includePatterns = o.includePatterns)
    (hEP : oU.excludePatterns = o.excludePatterns)
    (relativePath name : String) (size : Nat) (content : String)
    (hrp : extname relativePath = extname name)
    (hcov : ∀ f ∈ admitFile o mm relativePath name size content,
      lowerStr (extname f.path) ∈ U) :
    admitFile oU mm relativePath name size content =
      admitFile o mm relativePath name size content := by
  simp only [admitFile, hfty, hftyU, hS, hEF, hIP, hEP]
  by_cases q1 : (o.excludeFiles.any (fun pattern => mm relativePath pattern)) = true
  · simp [q1]
  · simp only [Bool.not_eq_true] at q1
    simp only [q1, Bool.false_eq_true, if_false]
    by_cases q2 : (o.includePatterns.length > 0 &&
        !(o.includePatterns.any (fun pattern => mm relativePath pattern))) = true
    · simp [q2]
    · simp only [Bool.not_eq_true] at q2
      simp only [q2, Bool.false_eq_true, if_false]
      by_cases q3 : (o.excludePatterns.any (fun pattern => mm relativePath pattern)) = true
      · simp [q3]
      · simp only [Bool.not_eq_true] at q3
        simp only [q3, Bool.false_eq_true, if_false]
        by_cases qs : (mkRat size (1024 * 1024) > o.maxSizeMB)
        · simp [qs]
        · have hadm : admitFile o mm relativePath name size content =
              [{ path := relativePath, content := content }] := by
            simp [admitFile, hfty, q1, q2, q3, qs]
          have hU : lowerStr (extname name) ∈ U := by
            have := hcov { path := relativePath, content := content }
              (by rw [hadm]; simp)
            rwa [hrp] at this
          simp [qs, hU]

mutual

/-- Entrywise: replacing the empty allowlist by a list U that covers the
extension of everything this entry contributes changes nothing. -/
theorem collectEntry_fileTypes_cover (o oU : Options) (U : List String)
    (ig : String → Bool) (mm : String → String → Bool)
    (hfty : o.fileTypes = []) (hftyU : oU.fileTypes = U)
    (hS : oU.maxSizeMB = o.maxSizeMB) (hD : oU.maxDepth = o.maxDepth)
    (hXF : oU.excludeFolders = o.excludeFolders) (hEF : oU.excludeFiles = o.excludeFiles)
    (hRG : oU.respectGitignore = o.respectGitignore)
    (hIP : oU.includePatterns = o.includePatterns)
    (hEP : oU.excludePatterns = o.excludePatterns)
    (rel : String) (d : Nat) (e : FSEntry)
    (hcover : ∀ f ∈ collectEntry o ig mm rel d e, lowerStr (extname f.path) ∈ U) :
    collectEntry oU ig mm rel d e = collectEntry o ig mm rel d e := by
  cases e with
  | symlink n => simp [collectEntry]
  | dir n cs =>
    simp only [collectEntry, FSEntry.name, hRG, hXF]
    by_cases h1 : (o.respectGitignore && ig (childPath rel n)) = true
    · simp [h1]
    · simp only [Bool.not_eq_true] at h1
      by_cases h2 : n ∈ o.excludeFolders
      · simp [h1, h2]
      · have hc : o.excludeFolders.contains n = false := by simpa using h2
        simp only [h1, hc, Bool.false_eq_true, if_false]
        refine collectFiles_fileTypes_cover o oU U ig mm hfty hftyU hS hD hXF hEF hRG hIP hEP
          (childPath rel n) cs (d + 1) ?_
        intro f hf
        refine hcover f ?_
        simp only [collectEntry, FSEntry.name, h1, hc, Bool.false_eq_true, if_false]
        exact hf
  | file n sz c =>
    simp only [collectEntry, FSEntry.name, hRG]
    by_cases h1 : (o.respectGitignore && ig (childPath rel n)) = true
    · simp [h1]
    · simp only [Bool.not_eq_true] at h1
      simp only [h1, Bool.false_eq_true, if_false]
      refine admitFile_fileTypes_cover o oU U mm hfty hftyU hS hEF hIP hEP
        (childPath rel n) n sz c (extname_childPath rel n) ?_
      intro f hf
      refine hcover f ?_
      simp only [collectEntry, FSEntry.name, h1, Bool.false_eq_true, if_false]
      exact hf

/-- Listwise version. -/
theorem collectFiles_fileTypes_cover (o oU : Options) (U : List String)
    (ig : String → Bool) (mm : String → String → Bool)
    (hfty : o.fileTypes = []) (hftyU : oU.fileTypes = U)
    (hS : oU.maxSizeMB = o.maxSizeMB) (hD : oU.maxDepth = o.maxDepth)
    (hXF : oU.excludeFolders = o.excludeFolders) (hEF : oU.excludeFiles = o.excludeFiles)
    (hRG : oU.respectGitignore = o.respectGitignore)
    (hIP : oU.includePatterns = o.includePatterns)
    (hEP : oU.excludePatterns = o.excludePatterns)
    (rel : String) (cs : List FSEntry) (d : Nat)
    (hcover : ∀ f ∈ collectFiles o ig mm rel cs d, lowerStr (extname f.path) ∈ U) :
    collectFiles oU ig mm rel cs d = collectFiles o ig mm rel cs d := by
  cases cs with
  | nil => rw [collectFiles_nil_eq, collectFiles_nil_eq]
  | cons e rest =>
    rw [collectFiles_cons_eq, collectFiles_cons_eq, depthExceeded_congr o oU hD d]
    by_cases hgd : depthExceeded o d = true
    · simp [hgd]
    · simp only [Bool.not_eq_true] at hgd
      simp only [hgd, Bool.false_eq_true, if_false]
      have hmemL : ∀ f ∈ collectEntry o ig mm rel d e, lowerStr (extname f.path) ∈ U := by
        intro f hf
        refine hcover f ?_
        rw [collectFiles_cons_eq, if_neg (by simp [hgd])]
        exact List.mem_append_left _ hf
      have hmemR : ∀ f ∈ collectFiles o ig mm rel rest d, lowerStr (extname f.path) ∈ U := by
        intro f hf
        refine hcover f ?_
        rw [collectFiles_cons_eq, if_neg (by simp [hgd])]
        exact List.mem_append_right _ hf
      rw [collectEntry_fileTypes_cover o oU U ig mm hfty hftyU hS hD hXF hEF hRG hIP hEP
        rel d e hmemL,
        collectFiles_fileTypes_cover o oU U ig mm hfty hftyU hS hD hXF hEF hRG hIP hEP
        rel rest d hmemR]

end

/-- C8: round trip of the extension allowlist: over any fixed tree, running
with fileTypes equal to the list of lower-cased extensions occurring among
the files collected by the allow-all run (all other configuration equal)
returns exactly the allow-all result. -/
theorem fileTypes_roundtrip (o oU : Options) (ig : String → Bool)
    (mm : String → String → Bool) (rootChildren : List FSEntry)
    (hfty : o.fileTypes = [])
    (hftyU : oU.fileTypes =
      (runCollect o ig mm rootChildren).map (fun f => lowerStr (extname f.path)))
    (hS : oU.maxSizeMB = o.maxSizeMB) (hD : oU.maxDepth = o.maxDepth)
    (hXF : oU.excludeFolders = o.excludeFolders) (hEF : oU.excludeFiles = o.excludeFiles)
    (hRG : oU.respectGitignore = o.respectGitignore)
    (hIP : oU.includePatterns = o.includePatterns)
    (hEP : oU.excludePatterns = o.excludePatterns) :
    runCollect oU ig mm rootChildren = runCollect o ig mm rootChildren := by
  unfold runCollect
  exact collectFiles_fileTypes_cover o oU _ ig mm hfty hftyU hS hD hXF hEF hRG hIP hEP
    "" rootChildren 0 (fun f hf => List.mem_map_of_mem _ hf)

/-- Witness for C8 on a concrete tree: the allow-all run collects a.ts and
b.md; rerunning with fileTypes set to the extension universe of that result
returns the same files. -/
theorem fileTypes_roundtrip_witness :
    runCollect { defaultOptions with fileTypes := (runCollect { defaultOptions with fileTypes := [] } (fun _ => false) (fun _ _ => false) [FSEntry.file "a.ts" 1 "x", FSEntry.file "b.md" 1 "y", FSEntry.dir "node_modules" [FSEntry.file "c.ts" 1 "z"]]).map (fun f => lowerStr (extname f.path)) }
        (fun _ => false) (fun _ _ => false)
        [FSEntry.file "a.ts" 1 "x", FSEntry.file "b.md" 1 "y",
         FSEntry.dir "node_modules" [FSEntry.file "c.ts" 1 "z"]] =
      runCollect { defaultOptions with fileTypes := [] } (fun _ => false)
        (fun _ _ => false)
        [FSEntry.file "a.ts" 1 "x", FSEntry.file "b.md" 1 "y",
         FSEntry.dir "node_modules" [FSEntry.file "c.ts" 1 "z"]] ∧
    runCollect { defaultOptions with fileTypes := [] } (fun _ => false)
        (fun _ _ => false)
        [FSEntry.file "a.ts" 1 "x", FSEntry.file "b.md" 1 "y",
         FSEntry.dir "node_modules" [FSEntry.file "c.ts" 1 "z"]] =
      [{ path := "a.ts", content := "x" }, { path := "b.md", content := "y" }] := by
  exact ⟨fileTypes_roundtrip _ _ _ _ _ rfl rfl rfl rfl rfl rfl rfl rfl rfl, by decide⟩
